import Mathlib

/-!
Verification development for the `koa-better-router` package (`src/index.js`).

The JavaScript source is shallowly embedded: routes, contexts and router
options become Lean structures; the variadic, dynamically typed arguments of
`createRoute` become an inductive `Arg` type; the dispatch loop produced by
`middleware` becomes a structural recursion over the route table that threads
the (mutated) table, the context, the number of `next()` invocations and the
promise outcome.  External capabilities (the path-match compiler, the
generator check and converter, `koa-compose`) are abstract parameters.
-/

set_option autoImplicit false

/-- A parameter mapping extracted by a matcher (JS: plain object). -/
abbrev Params := List (String × String)

/-- The dynamic values that can be passed to `createRoute` / collected into
a route's `middlewares` array: strings, non-string non-function primitives
(represented by their number case, which is all the claims need), handler
functions (abstract, of type `H`), arrays, and `undefined`. -/
inductive Arg (H : Type) where
  | str : String → Arg H
  | num : Int → Arg H
  | fn : H → Arg H
  | arr : List (Arg H) → Arg H
  | undef : Arg H

/-- JS `typeof x === 'string'`. -/
def Arg.isStr {H : Type} : Arg H → Bool
  | .str _ => true
  | _ => false

/-- The string payload of an `Arg.str` (and a default elsewhere). -/
def Arg.asString {H : Type} : Arg H → String
  | .str s => s
  | _ => ""

/-- Lift JS "string or undefined" (`parts[1]`) into an `Arg`. -/
def optArg {H : Type} : Option String → Arg H
  | some s => Arg.str s
  | none => Arg.undef

/-- JS `String.prototype.split` with a one-character separator, on the
character list of the string (`'GET /x'.split(' ') = ['GET', '/x']`,
`''.split(' ') = ['']`). -/
def jsSplitList (sep : Char) : List Char → List (List Char)
  | [] => [[]]
  | c :: cs =>
    match jsSplitList sep cs with
    | [] => [[]]
    | g :: gs => if c = sep then [] :: g :: gs else (c :: g) :: gs

/-- JS `String.prototype.split` with a one-character separator. -/
def jsSplit (sep : Char) (s : String) : List String :=
  (jsSplitList sep s.data).map String.mk

/-- JS `String.prototype.toUpperCase` (ASCII, which covers HTTP verbs). -/
def jsToUpper (s : String) : String :=
  String.mk (s.data.map Char.toUpper)

/-- Collapse every run of consecutive slashes into a single slash. -/
def collapseSlashes : List Char → List Char
  | [] => []
  | c :: rest =>
    match collapseSlashes rest with
    | '/' :: rest2 => if c = '/' then '/' :: rest2 else c :: '/' :: rest2
    | other => c :: other

/-- Modelled from the spec: `utils.createPrefix` lives in the repository's
`utils.js`, which is not under `src/`.  Per spec §3, the full path "is always
`prefix` joined with `basePattern` using single-slash-normalized concatenation
(no duplicate slashes, trailing slash collapsed unless pattern is exactly
`/`)", with the examples `/api` + `/users` = `/api/users` and
`/` + `/users` = `/users`. -/
def createPrefix (pfx pathname : String) : String :=
  let s := collapseSlashes (pfx.data ++ pathname.data)
  let s :=
    if pathname ≠ "/" ∧ 1 < s.length ∧ s.getLast? = some '/' then s.dropLast else s
  String.mk s

/-- One route record, as built by `createRoute` (`src/index.js` lines
234-243).  The JS field `prefix` is named `pfx` (in Lean `prefix` is a
reserved word) and the compiled matcher closure `match` is represented by
`matchPat`, the pattern string it was compiled from (the matcher is always
`this.route(pat)` for the stored pattern, so the pattern determines it). -/
structure Route (H : Type) where
  pfx : String
  path : String
  pathname : String
  route : String
  matchPat : String
  method : String
  middlewares : List (Arg H)
  params : Option Params := none

/-- Modelled from the spec: `utils.arrayify` lives in `utils.js`, not under
`src/`.  Per spec §4.1, handler arguments are "flattened into one ordered
handler sequence": an absent value contributes nothing, an array contributes
its elements, anything else contributes itself. -/
def arrayify {H : Type} : Arg H → List (Arg H)
  | .undef => []
  | .arr xs => xs
  | x => [x]

/-- The two sequential `if` statements of `createRoute` (`src/index.js` lines
222-229): a function argument is prepended to the handler list and the route
falls back to `parts[1]`; then an array argument is prepended likewise.
Returns the final middleware list and the resolved route argument. -/
def resolveRoute {H : Type} (parts : List String) (route : Arg H)
    (mws : List (Arg H)) : List (Arg H) × Arg H :=
  let step1 :=
    match route with
    | Arg.fn h => (Arg.fn h :: mws, (optArg parts[1]? : Arg H))
    | r => (mws, r)
  match step1.2 with
  | Arg.arr hs => (hs ++ step1.1, (optArg parts[1]? : Arg H))
  | r => (step1.1, r)

/-- `KoaBetterRouter.prototype.createRoute` (`src/index.js` lines 210-244).
`pfx` is the router's currently configured prefix (`this.options.prefix`);
`fns` is the third JS argument and `args` the remaining variadic arguments.
A thrown `TypeError` becomes `Except.error` carrying the message. -/
def createRoute {H : Type} (pfx : String) (method route fns : Arg H)
    (args : List (Arg H)) : Except String (Route H) :=
  let middlewares := arrayify fns ++ args
  match method with
  | Arg.str mstr =>
    let parts := jsSplit ' ' mstr
    let m0 := parts.headD ""
    let meth := jsToUpper (if m0 = "" then "get" else m0)
    let rr := resolveRoute parts route middlewares
    match rr.2 with
    | Arg.str rstr =>
      let prefixed := createPrefix pfx rstr
      Except.ok
        { pfx := pfx, path := prefixed, pathname := rstr, route := rstr,
          matchPat := prefixed, method := meth, middlewares := rr.1,
          params := none }
    | _ => Except.error ".createRoute: expect `route` be string, array or function"
  | _ => Except.error ".createRoute: expect `method` to be a string"

/-- `true` exactly on `Except.ok`. -/
def exceptOk {ε α : Type} : Except ε α → Bool
  | .ok _ => true
  | .error _ => false

/-- The request context, restricted to the fields the dispatcher reads and
writes (`ctx.method`, `ctx.path`, `ctx.params`, `ctx.route`). -/
structure Ctx (H : Type) where
  method : String
  path : String
  params : Option Params
  route : Option (Route H)

/-- A promise outcome: resolved, or rejected with an error value. -/
inductive Outcome where
  | resolved : Outcome
  | rejected : String → Outcome

/-- Promise `p.then(k)` for a constant continuation: the continuation's
outcome if `p` resolved, the same rejection if `p` rejected. -/
def thenOutcome (p : Outcome) (k : Outcome) : Outcome :=
  match p with
  | .resolved => k
  | .rejected e => .rejected e

/-- How many times the `.then` callback (which is what invokes `next()` in
`src/index.js` line 345) runs: once on resolution, never on rejection. -/
def nextCount (p : Outcome) : Nat :=
  match p with
  | .resolved => 1
  | .rejected _ => 0

/-- The prefix-rewrite step of the dispatch loop (`src/index.js` lines
319-324): if the configured prefix differs from the route's stored prefix,
recompute the prefix, the full path, and the matcher (all three together)
from the configured prefix and the original pattern. -/
def effRoute {H : Type} (pfx : String) (r : Route H) : Route H :=
  if pfx ≠ r.pfx then
    let prefixed := createPrefix pfx r.pathname
    { r with pfx := pfx, path := prefixed, matchPat := prefixed }
  else r

/-- The mutations performed on a matched route (`src/index.js` lines
334-337): store the extracted params on the route and normalize every
generator middleware in place (`isGen` and `conv` abstract the external
`utils.isGenerator` and `utils.convert`). -/
def processHit {H : Type} (isGen : Arg H → Bool) (conv : Arg H → Arg H)
    (m : Params) (r : Route H) : Route H :=
  { r with params := some m,
           middlewares := r.middlewares.map fun f => if isGen f then conv f else f }

/-- What a route considered under configured prefix `pfx` looks like after
the loop body has run its method check and (possible) prefix rewrite. -/
def scanned {H : Type} (pfx meth : String) (r : Route H) : Route H :=
  if meth = r.method then effRoute pfx r else r

/-- Route `r` is selected by the loop for context `ctx`: its method equals
the request method and its (possibly prefix-rewritten) matcher accepts the
request path.  `pm pat path ps` abstracts `this.route(pat)(path, ps)`, the
external path-match capability. -/
def accepts {H : Type} (pm : String → String → Option Params → Option Params)
    (pfx : String) (ctx : Ctx H) (r : Route H) : Bool :=
  ctx.method == r.method && (pm (effRoute pfx r).matchPat ctx.path ctx.params).isSome

/-- Index of the first list element satisfying `p`. -/
def firstIdx {α : Type} (p : α → Bool) : List α → Option Nat
  | [] => none
  | a :: l => if p a then some 0 else (firstIdx p l).map (· + 1)

/-- Everything observable about one run of the dispatch function: the route
table after its in-place mutations, the context after the dispatcher's
writes, the index of the matched route (if any), how many times `next()`
was invoked, and the returned promise outcome. -/
structure DispatchOut (H : Type) where
  routes : List (Route H)
  ctx : Ctx H
  matched : Option Nat
  nextCalls : Nat
  outcome : Outcome

/-- The dispatch function returned by `middleware` (`src/index.js` lines
314-350), as a recursion over the route table.  `pm` abstracts the compiled
path matcher, `isGen`/`conv` the generator normalization, `ch` the external
`utils.compose` applied to a middleware list and a context, and `nxt` the
outcome of the downstream continuation `next()`. -/
def dispatchGo {H : Type} (pm : String → String → Option Params → Option Params)
    (isGen : Arg H → Bool) (conv : Arg H → Arg H)
    (ch : List (Arg H) → Ctx H → Outcome) (nxt : Outcome)
    (pfx : String) (ctx : Ctx H) : List (Route H) → DispatchOut H
  | [] => { routes := [], ctx := ctx, matched := none, nextCalls := 1, outcome := nxt }
  | r :: rs =>
    if ctx.method = r.method then
      let r1 := effRoute pfx r
      match pm r1.matchPat ctx.path ctx.params with
      | some m =>
        let rF := processHit isGen conv m r1
        let ctx2 := { ctx with route := some rF, params := some m }
        let p := ch rF.middlewares ctx2
        { routes := rF :: rs, ctx := ctx2, matched := some 0,
          nextCalls := nextCount p, outcome := thenOutcome p nxt }
      | none =>
        let out := dispatchGo pm isGen conv ch nxt pfx ctx rs
        { routes := r1 :: out.routes, ctx := out.ctx,
          matched := out.matched.map (· + 1),
          nextCalls := out.nextCalls, outcome := out.outcome }
    else
      let out := dispatchGo pm isGen conv ch nxt pfx ctx rs
      { routes := r :: out.routes, ctx := out.ctx,
        matched := out.matched.map (· + 1),
        nextCalls := out.nextCalls, outcome := out.outcome }

/-- The route table after a sequence of dispatches under one configured
prefix (each dispatch threads its in-place route mutations to the next). -/
def dispatchSeq {H : Type} (pm : String → String → Option Params → Option Params)
    (isGen : Arg H → Bool) (conv : Arg H → Arg H)
    (ch : List (Arg H) → Ctx H → Outcome) (nxt : Outcome)
    (pfx : String) (ctxs : List (Ctx H)) (routes : List (Route H)) : List (Route H) :=
  ctxs.foldl (fun rs c => (dispatchGo pm isGen conv ch nxt pfx c rs).routes) routes

/-- The router-specific configuration keys (`src/index.js` line 54: prefix
defaults to `/`; `legacy` defaults to false when resolved by `middleware`).
The JS field `prefix` is named `pfx` (Lean reserved word). -/
structure RouterOptions where
  pfx : String
  legacy : Bool

/-- The argument accepted by `middleware` (`src/index.js` lines 299-305):
absent (or any non-object non-boolean, which behaves the same), a boolean
shorthand for `legacy`, or an options object possibly carrying `legacy`
and `prefix` keys (a non-boolean `legacy` key behaves like an absent one). -/
inductive MwArg where
  | undef : MwArg
  | bool : Bool → MwArg
  | obj : Option Bool → Option String → MwArg

/-- The option-merging prelude of `middleware` (`src/index.js` lines
300-310): normalize the argument, force `legacy` to a boolean, and merge
the result over the router's current options (right-hand side wins). -/
def resolveOpts (cur : RouterOptions) : MwArg → RouterOptions
  | .undef => { cur with legacy := false }
  | .bool b => { cur with legacy := b }
  | .obj l p => { pfx := p.getD cur.pfx, legacy := l.getD false }

/-- The value returned by `middleware`: either the modern dispatch closure
(capturing the merged options) or the `koa-convert.back` wrapper that
`legacyMiddleware` puts around a dispatcher. -/
inductive Dispatcher where
  | modern : RouterOptions → Dispatcher
  | legacyWrap : Dispatcher → Dispatcher

/-- `KoaBetterRouter.prototype.middleware` together with
`legacyMiddleware` (`src/index.js` lines 299-313 and 379-381), with an
explicit recursion budget: `middleware` stores the merged options on the
router and either builds the modern dispatcher or calls `legacyMiddleware`,
which re-enters `middleware()` with no argument.  Returns the router's
final options and the dispatcher, or `none` if the budget is exhausted. -/
def middlewareFuel : Nat → RouterOptions → MwArg → Option (RouterOptions × Dispatcher)
  | 0, _, _ => none
  | n + 1, cur, a =>
    let opts := resolveOpts cur a
    if opts.legacy then
      (middlewareFuel n opts MwArg.undef).map fun sd => (sd.1, Dispatcher.legacyWrap sd.2)
    else
      some (opts, Dispatcher.modern opts)

/-- Modelled from the spec: `utils.methods` is the external `methods`
package.  Spec §4.2 and §6 describe it as "the fixed HTTP-verb set"
(`get/GET`, `post/POST`, `put/PUT`, `delete/DELETE`, etc.). -/
def httpMethods : List String :=
  ["get", "post", "put", "head", "delete", "options", "patch"]

/-- `KoaBetterRouter.prototype.loadMethods` (`src/index.js` lines 92-103)
acting on the shared prototype, modelled as an association list from
property name to the verb the installed method forwards to `addRoute` with.
For each verb it installs the lowercase and the uppercase property (both
forwarding the uppercase verb), then aliases `del` to the `delete`
property.  Later writes shadow earlier ones (lookup scans front first). -/
def protoLoadMethods (p : List (String × String)) : List (String × String) :=
  let p1 := httpMethods.foldl
    (fun acc m => (jsToUpper m, jsToUpper m) :: (m, jsToUpper m) :: acc) p
  match p1.lookup "delete" with
  | some v => ("del", v) :: p1
  | none => p1

/-- The own state of one router instance.  The constructor (`src/index.js`
lines 54-56) installs exactly three own properties on `this`: `options`
(the merged options object), `route` (the compiled path-match closure,
whose presence is all that matters here) and `routes` (the route table). -/
structure RouterInst (H : Type) where
  options : RouterOptions
  routes : List (Route H)

/-- The shared world of a JS process: the one `KoaBetterRouter.prototype`
object plus the own state of every instance. -/
structure World (H : Type) where
  proto : List (String × String)
  instances : List (RouterInst H)

/-- `router.loadMethods()` invoked on instance `i`: mutates only the shared
prototype and returns `this` (the caller index is irrelevant). -/
def loadMethodsW {H : Type} (w : World H) (_caller : Nat) : World H :=
  { w with proto := protoLoadMethods w.proto }

/-- What resolving a property on a router instance can yield: a prototype
verb-sugar method (carrying the uppercase verb it forwards to `addRoute`),
or one of the three own data properties installed by the constructor. -/
inductive PropVal (H : Type) where
  | verbMethod : String → PropVal H
  | optionsVal : RouterOptions → PropVal H
  | matchVal : PropVal H
  | routesVal : List (Route H) → PropVal H

/-- JS property resolution on instance `i`: an own property (`options`,
`route`, `routes`, installed by the constructor at `src/index.js` lines
54-56) shadows the shared prototype; any other name delegates to the
prototype. -/
def instanceProp {H : Type} (w : World H) (i : Nat) (name : String) :
    Option (PropVal H) :=
  match w.instances[i]? with
  | none => none
  | some inst =>
    if name = "options" then some (PropVal.optionsVal inst.options)
    else if name = "route" then some PropVal.matchVal
    else if name = "routes" then some (PropVal.routesVal inst.routes)
    else (w.proto.lookup name).map PropVal.verbMethod

/-- Constructing a new router instance (`src/index.js` lines 49-57):
appends an instance with the merged options and a fresh empty route table;
the prototype is untouched. -/
def newInstance {H : Type} (w : World H) (opts : RouterOptions) : World H :=
  { w with instances := w.instances ++ [{ options := opts, routes := [] }] }

/-- A sample router instance (default options, empty route table). -/
def instSample : RouterInst Unit :=
  { options := { pfx := "/", legacy := false }, routes := [] }

/-- A sample world: empty prototype, one router instance. -/
def worldSample : World Unit :=
  { proto := [], instances := [instSample] }

/-- A sample abstract matcher for concrete witnesses: the pattern matches
exactly the identical path and extracts one binding. -/
def pmSample : String → String → Option Params → Option Params :=
  fun pat path _ => if pat = path then some [("key", "val")] else none

/-- A sample composed chain that always resolves. -/
def chSample : List (Arg Unit) → Ctx Unit → Outcome := fun _ _ => Outcome.resolved

/-- A sample composed chain that always rejects. -/
def chFail : List (Arg Unit) → Ctx Unit → Outcome := fun _ _ => Outcome.rejected "boom"

/-- A sample generator test: nothing is a generator. -/
def noGen : Arg Unit → Bool := fun _ => false

/-- A sample generator converter: identity. -/
def idConv : Arg Unit → Arg Unit := fun a => a

/-- A sample GET request context. -/
def ctxGet : Ctx Unit :=
  { method := "GET", path := "/x", params := none, route := none }

/-- A sample POST request context. -/
def ctxPost : Ctx Unit :=
  { method := "POST", path := "/x", params := none, route := none }

/-- A sample registered route (`GET /x` under prefix `/`). -/
def routeSample : Route Unit :=
  { pfx := "/", path := "/x", pathname := "/x", route := "/x",
    matchPat := "/x", method := "GET", middlewares := [], params := none }

/-- A sample route registered under prefix `/api`, used to exercise the
lazy prefix rewrite when dispatching under prefix `/`. -/
def routeOld : Route Unit :=
  { pfx := "/api", path := "/api/x", pathname := "/x", route := "/x",
    matchPat := "/api/x", method := "GET", middlewares := [], params := none }



/-! ## Helper lemmas -/

theorem effRoute_pathname {H : Type} (pfx : String) (r : Route H) :
    (effRoute pfx r).pathname = r.pathname := by
  unfold effRoute; split <;> rfl

theorem effRoute_method {H : Type} (pfx : String) (r : Route H) :
    (effRoute pfx r).method = r.method := by
  unfold effRoute; split <;> rfl

theorem effRoute_middlewares {H : Type} (pfx : String) (r : Route H) :
    (effRoute pfx r).middlewares = r.middlewares := by
  unfold effRoute; split <;> rfl

theorem effRoute_of_pfx_eq {H : Type} (pfx : String) (r : Route H)
    (h : r.pfx = pfx) : effRoute pfx r = r := by
  unfold effRoute
  rw [if_neg]
  simp [h]

theorem effRoute_of_pfx_ne {H : Type} (pfx : String) (r : Route H)
    (h : r.pfx ≠ pfx) :
    effRoute pfx r
      = { r with pfx := pfx, path := createPrefix pfx r.pathname,
                 matchPat := createPrefix pfx r.pathname } := by
  unfold effRoute
  rw [if_pos (Ne.symm h)]

theorem processHit_pfx {H : Type} (g : Arg H → Bool) (c : Arg H → Arg H)
    (m : Params) (r : Route H) : (processHit g c m r).pfx = r.pfx := rfl

theorem processHit_path {H : Type} (g : Arg H → Bool) (c : Arg H → Arg H)
    (m : Params) (r : Route H) : (processHit g c m r).path = r.path := rfl

theorem processHit_matchPat {H : Type} (g : Arg H → Bool) (c : Arg H → Arg H)
    (m : Params) (r : Route H) : (processHit g c m r).matchPat = r.matchPat := rfl

theorem processHit_pathname {H : Type} (g : Arg H → Bool) (c : Arg H → Arg H)
    (m : Params) (r : Route H) : (processHit g c m r).pathname = r.pathname := rfl

theorem processHit_method {H : Type} (g : Arg H → Bool) (c : Arg H → Arg H)
    (m : Params) (r : Route H) : (processHit g c m r).method = r.method := rfl

theorem firstIdx_cons {α : Type} (p : α → Bool) (a : α) (l : List α) :
    firstIdx p (a :: l) = if p a then some 0 else (firstIdx p l).map (· + 1) := rfl

theorem accepts_true_elim {H : Type}
    (pm : String → String → Option Params → Option Params) (pfx : String)
    (ctx : Ctx H) (r : Route H) (h : accepts pm pfx ctx r = true) :
    ctx.method = r.method ∧
      ∃ m, pm (effRoute pfx r).matchPat ctx.path ctx.params = some m := by
  unfold accepts at h
  rcases Bool.and_eq_true_iff.mp h with ⟨h1, h2⟩
  exact ⟨eq_of_beq h1, Option.isSome_iff_exists.mp h2⟩

theorem accepts_false_of_method {H : Type}
    (pm : String → String → Option Params → Option Params) (pfx : String)
    (ctx : Ctx H) (r : Route H) (h : ctx.method ≠ r.method) :
    accepts pm pfx ctx r = false := by
  unfold accepts
  simp [h]

theorem accepts_false_elim_pm {H : Type}
    (pm : String → String → Option Params → Option Params) (pfx : String)
    (ctx : Ctx H) (r : Route H) (h : accepts pm pfx ctx r = false)
    (hm : ctx.method = r.method) :
    pm (effRoute pfx r).matchPat ctx.path ctx.params = none := by
  unfold accepts at h
  rw [Bool.and_eq_false_iff] at h
  rcases h with h | h
  · exact absurd hm (by simpa using h)
  · simpa [Option.isSome_iff_exists] using h

theorem accepts_intro {H : Type}
    (pm : String → String → Option Params → Option Params) (pfx : String)
    (ctx : Ctx H) (r : Route H) (m : Params) (hm : ctx.method = r.method)
    (hpm : pm (effRoute pfx r).matchPat ctx.path ctx.params = some m) :
    accepts pm pfx ctx r = true := by
  unfold accepts
  simp [hm, hpm]

theorem dispatchGo_matched_eq {H : Type}
    (pm : String → String → Option Params → Option Params)
    (isGen : Arg H → Bool) (conv : Arg H → Arg H)
    (ch : List (Arg H) → Ctx H → Outcome) (nxt : Outcome)
    (pfx : String) (ctx : Ctx H) :
    ∀ rts : List (Route H),
      (dispatchGo pm isGen conv ch nxt pfx ctx rts).matched
        = firstIdx (accepts pm pfx ctx) rts
  | [] => rfl
  | r :: rs => by
    have ih := dispatchGo_matched_eq pm isGen conv ch nxt pfx ctx rs
    rw [firstIdx_cons]
    by_cases hm : ctx.method = r.method
    · rcases hpm : pm (effRoute pfx r).matchPat ctx.path ctx.params with _ | m
      · have hacc : accepts pm pfx ctx r = false := by
          unfold accepts; simp [hpm]
        simp only [dispatchGo, if_pos hm, hpm, hacc, if_neg Bool.false_ne_true, ih]
      · have hacc : accepts pm pfx ctx r = true := accepts_intro pm pfx ctx r m hm hpm
        simp only [dispatchGo, if_pos hm, hpm, hacc, if_true]
    · have hacc : accepts pm pfx ctx r = false := accepts_false_of_method pm pfx ctx r hm
      simp only [dispatchGo, if_neg hm, hacc, if_neg Bool.false_ne_true, ih]

theorem dispatchGo_noAccept {H : Type}
    (pm : String → String → Option Params → Option Params)
    (isGen : Arg H → Bool) (conv : Arg H → Arg H)
    (ch : List (Arg H) → Ctx H → Outcome) (nxt : Outcome)
    (pfx : String) (ctx : Ctx H) :
    ∀ rts : List (Route H),
      firstIdx (accepts pm pfx ctx) rts = none →
      dispatchGo pm isGen conv ch nxt pfx ctx rts
        = { routes := rts.map (scanned pfx ctx.method), ctx := ctx,
            matched := none, nextCalls := 1, outcome := nxt }
  | [], _ => rfl
  | r :: rs, h => by
    rw [firstIdx_cons] at h
    have hacc : accepts pm pfx ctx r = false := by
      by_cases hb : accepts pm pfx ctx r = true
      · rw [if_pos hb] at h; cases h
      · exact Bool.not_eq_true _ |>.mp hb
    rw [if_neg (by simp [hacc])] at h
    have hrs : firstIdx (accepts pm pfx ctx) rs = none := by
      rcases hfi : firstIdx (accepts pm pfx ctx) rs with _ | i
      · rfl
      · rw [hfi] at h; cases h
    have ih := dispatchGo_noAccept pm isGen conv ch nxt pfx ctx rs hrs
    by_cases hm : ctx.method = r.method
    · have hpm : pm (effRoute pfx r).matchPat ctx.path ctx.params = none :=
        accepts_false_elim_pm pm pfx ctx r hacc hm
      simp only [dispatchGo, if_pos hm, hpm, ih, List.map_cons, scanned, DispatchOut.mk.injEq]
      simp [hm]
    · simp only [dispatchGo, if_neg hm, ih, List.map_cons, scanned, if_neg hm,
        DispatchOut.mk.injEq]
      simp [hm]

theorem dispatchGo_hit {H : Type}
    (pm : String → String → Option Params → Option Params)
    (isGen : Arg H → Bool) (conv : Arg H → Arg H)
    (ch : List (Arg H) → Ctx H → Outcome) (nxt : Outcome)
    (pfx : String) (ctx : Ctx H) :
    ∀ (rts : List (Route H)) (i : Nat),
      firstIdx (accepts pm pfx ctx) rts = some i →
      ∃ r m,
        rts[i]? = some r ∧
        ctx.method = r.method ∧
        pm (effRoute pfx r).matchPat ctx.path ctx.params = some m ∧
        dispatchGo pm isGen conv ch nxt pfx ctx rts
          = { routes := (rts.take i).map (scanned pfx ctx.method)
                ++ processHit isGen conv m (effRoute pfx r) :: rts.drop (i + 1),
              ctx := { ctx with
                route := some (processHit isGen conv m (effRoute pfx r)),
                params := some m },
              matched := some i,
              nextCalls := nextCount (ch (processHit isGen conv m (effRoute pfx r)).middlewares
                { ctx with route := some (processHit isGen conv m (effRoute pfx r)),
                           params := some m }),
              outcome := thenOutcome
                (ch (processHit isGen conv m (effRoute pfx r)).middlewares
                  { ctx with route := some (processHit isGen conv m (effRoute pfx r)),
                             params := some m }) nxt }
  | [], i, h => by cases h
  | r0 :: rs, i, h => by
    rw [firstIdx_cons] at h
    by_cases hb : accepts pm pfx ctx r0 = true
    · rw [if_pos hb] at h
      obtain ⟨hm, m, hpm⟩ := accepts_true_elim pm pfx ctx r0 hb
      injection h with h0
      subst h0
      refine ⟨r0, m, List.getElem?_cons_zero, hm, hpm, ?_⟩
      simp only [dispatchGo, if_pos hm, hpm]
      simp
    · have hacc : accepts pm pfx ctx r0 = false := Bool.not_eq_true _ |>.mp hb
      rw [if_neg (by simp [hacc])] at h
      obtain ⟨i0, hfi, hi⟩ := Option.map_eq_some'.mp h
      subst hi
      obtain ⟨r, m, hget, hm, hpm, heq⟩ :=
        dispatchGo_hit pm isGen conv ch nxt pfx ctx rs i0 hfi
      by_cases hm0 : ctx.method = r0.method
      · have hpm0 : pm (effRoute pfx r0).matchPat ctx.path ctx.params = none :=
          accepts_false_elim_pm pm pfx ctx r0 hacc hm0
        refine ⟨r, m, by simpa using hget, hm, hpm, ?_⟩
        simp only [dispatchGo, if_pos hm0, hpm0, heq]
        simp only [List.take_succ_cons, List.map_cons, List.drop_succ_cons,
          List.cons_append, DispatchOut.mk.injEq]
        simp [scanned, hm0]
      · refine ⟨r, m, by simpa using hget, hm, hpm, ?_⟩
        simp only [dispatchGo, if_neg hm0, heq]
        simp only [List.take_succ_cons, List.map_cons, List.drop_succ_cons,
          List.cons_append, DispatchOut.mk.injEq]
        simp [scanned, hm0]

theorem firstIdx_some_prior {α : Type} (p : α → Bool) :
    ∀ (l : List α) (i : Nat), firstIdx p l = some i →
      ∀ (j : Nat) (b : α), j < i → l[j]? = some b → p b = false
  | [], i, h => by cases h
  | a :: l, i, h => by
    rw [firstIdx_cons] at h
    by_cases hb : p a = true
    · rw [if_pos hb] at h
      injection h with h0
      subst h0
      intro j b hj
      exact absurd hj (Nat.not_lt_zero j)
    · have hpa : p a = false := Bool.not_eq_true _ |>.mp hb
      rw [if_neg (by simp [hpa])] at h
      obtain ⟨i0, hfi, hi⟩ := Option.map_eq_some'.mp h
      subst hi
      intro j b hj hget
      match j with
      | 0 =>
        rw [List.getElem?_cons_zero] at hget
        injection hget with hg
        subst hg
        exact hpa
      | j + 1 =>
        rw [List.getElem?_cons_succ] at hget
        exact firstIdx_some_prior p l i0 hfi j b (Nat.lt_of_succ_lt_succ hj) hget

theorem dispatchGo_frame {H : Type}
    (pm : String → String → Option Params → Option Params)
    (isGen : Arg H → Bool) (conv : Arg H → Arg H)
    (ch : List (Arg H) → Ctx H → Outcome) (nxt : Outcome)
    (pfx : String) (ctx : Ctx H) :
    ∀ (rts : List (Route H)) (j : Nat) (r : Route H),
      rts[j]? = some r →
      ∃ r2, (dispatchGo pm isGen conv ch nxt pfx ctx rts).routes[j]? = some r2 ∧
        (ctx.method ≠ r.method → r2 = r) ∧
        r2.pathname = r.pathname ∧ r2.method = r.method ∧
        (r.pfx = pfx → r2.pfx = r.pfx ∧ r2.path = r.path ∧ r2.matchPat = r.matchPat) ∧
        (r.pfx ≠ pfx → ctx.method = r.method →
          (∀ (k : Nat) (rk : Route H), k < j → rts[k]? = some rk →
            accepts pm pfx ctx rk = false) →
          r2.pfx = pfx ∧ r2.path = createPrefix pfx r.pathname
            ∧ r2.matchPat = createPrefix pfx r.pathname)
  | [], j, r, h => by simp at h
  | r0 :: rs, j, r, h => by
    by_cases hm0 : ctx.method = r0.method
    · rcases hpm0 : pm (effRoute pfx r0).matchPat ctx.path ctx.params with _ | m
      · -- method matches, matcher does not: route is rewritten, loop continues
        match j with
        | 0 =>
          rw [List.getElem?_cons_zero] at h
          injection h with hg
          subst hg
          refine ⟨effRoute pfx r0, ?_, ?_, effRoute_pathname pfx r0,
            effRoute_method pfx r0, ?_, ?_⟩
          · simp only [dispatchGo, if_pos hm0, hpm0]
            exact List.getElem?_cons_zero
          · intro hne; exact absurd hm0 hne
          · intro hpe
            rw [effRoute_of_pfx_eq pfx r0 hpe]
            exact ⟨rfl, rfl, rfl⟩
          · intro hpne _ _
            rw [effRoute_of_pfx_ne pfx r0 hpne]
            exact ⟨rfl, rfl, rfl⟩
        | j + 1 =>
          rw [List.getElem?_cons_succ] at h
          obtain ⟨r2, hget, hcond⟩ :=
            dispatchGo_frame pm isGen conv ch nxt pfx ctx rs j r h
          refine ⟨r2, ?_, hcond.1, hcond.2.1, hcond.2.2.1, hcond.2.2.2.1, ?_⟩
          · simp only [dispatchGo, if_pos hm0, hpm0]
            rw [List.getElem?_cons_succ]
            exact hget
          · intro hpne hmeq hprior
            refine hcond.2.2.2.2 hpne hmeq ?_
            intro k rk hk hgetk
            exact hprior (k + 1) rk (Nat.succ_lt_succ hk)
              (by rw [List.getElem?_cons_succ]; exact hgetk)
      · -- method matches and matcher accepts: this is the hit
        have hacc0 : accepts pm pfx ctx r0 = true :=
          accepts_intro pm pfx ctx r0 m hm0 hpm0
        match j with
        | 0 =>
          rw [List.getElem?_cons_zero] at h
          injection h with hg
          subst hg
          refine ⟨processHit isGen conv m (effRoute pfx r0), ?_, ?_, ?_, ?_, ?_, ?_⟩
          · simp only [dispatchGo, if_pos hm0, hpm0]
            exact List.getElem?_cons_zero
          · intro hne; exact absurd hm0 hne
          · rw [processHit_pathname]; exact effRoute_pathname pfx r0
          · rw [processHit_method]; exact effRoute_method pfx r0
          · intro hpe
            rw [processHit_pfx, processHit_path, processHit_matchPat,
              effRoute_of_pfx_eq pfx r0 hpe]
            exact ⟨rfl, rfl, rfl⟩
          · intro hpne _ _
            rw [processHit_pfx, processHit_path, processHit_matchPat,
              effRoute_of_pfx_ne pfx r0 hpne]
            exact ⟨rfl, rfl, rfl⟩
        | j + 1 =>
          -- the loop returned at index 0; later routes are untouched
          rw [List.getElem?_cons_succ] at h
          refine ⟨r, ?_, fun _ => rfl, rfl, rfl, fun _ => ⟨rfl, rfl, rfl⟩, ?_⟩
          · simp only [dispatchGo, if_pos hm0, hpm0]
            rw [List.getElem?_cons_succ]
            exact h
          · intro _ _ hprior
            exact absurd hacc0 (by
              rw [hprior 0 r0 (Nat.succ_pos j) List.getElem?_cons_zero]
              simp)
    · -- method mismatch: route skipped entirely
      match j with
      | 0 =>
        rw [List.getElem?_cons_zero] at h
        injection h with hg
        subst hg
        refine ⟨r0, ?_, fun _ => rfl, rfl, rfl, fun _ => ⟨rfl, rfl, rfl⟩, ?_⟩
        · simp only [dispatchGo, if_neg hm0]
          exact List.getElem?_cons_zero
        · intro _ hmeq _
          exact absurd hmeq hm0
      | j + 1 =>
        rw [List.getElem?_cons_succ] at h
        obtain ⟨r2, hget, hcond⟩ :=
          dispatchGo_frame pm isGen conv ch nxt pfx ctx rs j r h
        refine ⟨r2, ?_, hcond.1, hcond.2.1, hcond.2.2.1, hcond.2.2.2.1, ?_⟩
        · simp only [dispatchGo, if_neg hm0]
          rw [List.getElem?_cons_succ]
          exact hget
        · intro hpne hmeq hprior
          refine hcond.2.2.2.2 hpne hmeq ?_
          intro k rk hk hgetk
          exact hprior (k + 1) rk (Nat.succ_lt_succ hk)
            (by rw [List.getElem?_cons_succ]; exact hgetk)

/-! ## Claim theorems -/

/-- C1: for every router and request context, the dispatch function selects
the first route in registration order whose method equals the request method
and whose (possibly prefix-rewritten) matcher accepts the request path; for
that route it stores the updated route record on `context.route` (the very
record kept in the route table) and the matcher's extracted mapping on
`context.params`, and earlier-registered routes win over later ones. -/
theorem c1_dispatch_selects_first_match {H : Type}
    (pm : String → String → Option Params → Option Params)
    (isGen : Arg H → Bool) (conv : Arg H → Arg H)
    (ch : List (Arg H) → Ctx H → Outcome) (nxt : Outcome)
    (pfx : String) (ctx : Ctx H) (rts : List (Route H)) (out : DispatchOut H)
    (hout : dispatchGo pm isGen conv ch nxt pfx ctx rts = out) :
    out.matched = firstIdx (accepts pm pfx ctx) rts ∧
    ∀ i : Nat, out.matched = some i →
      ∃ r m, rts[i]? = some r ∧
        ctx.method = r.method ∧
        pm (effRoute pfx r).matchPat ctx.path ctx.params = some m ∧
        out.ctx.route = out.routes[i]? ∧
        out.ctx.params = some m ∧
        ∀ (j : Nat) (rj : Route H), j < i → rts[j]? = some rj →
          accepts pm pfx ctx rj = false := by
  subst hout
  refine ⟨dispatchGo_matched_eq pm isGen conv ch nxt pfx ctx rts, ?_⟩
  intro i hi
  rw [dispatchGo_matched_eq] at hi
  obtain ⟨r, m, hget, hm, hpm, heq⟩ :=
    dispatchGo_hit pm isGen conv ch nxt pfx ctx rts i hi
  have hlen : i < rts.length := (List.getElem?_eq_some.mp hget).1
  refine ⟨r, m, hget, hm, hpm, ?_, ?_, firstIdx_some_prior _ rts i hi⟩
  · rw [heq]
    have hlt : ((rts.take i).map (scanned pfx ctx.method)).length = i := by
      rw [List.length_map, List.length_take]
      exact Nat.min_eq_left (Nat.le_of_lt hlen)
    rw [List.getElem?_append_right (Nat.le_of_eq hlt), hlt, Nat.sub_self,
      List.getElem?_cons_zero]
  · rw [heq]

/-- C1 witness: a GET route registered for pattern `/x` is matched at index
0 by a GET request for `/x`, with the registration-order property
instantiated concretely. -/
theorem c1_witness :
    (dispatchGo pmSample noGen idConv chSample Outcome.resolved "/" ctxGet
        [routeSample]).matched
      = firstIdx (accepts pmSample "/" ctxGet) [routeSample] :=
  (c1_dispatch_selects_first_match pmSample noGen idConv chSample
    Outcome.resolved "/" ctxGet [routeSample] _ rfl).1

/-- C2: a request matching no registered route invokes `next()` exactly
once and leaves the whole context — in particular `context.route` and
`context.params` — unmodified; the dispatch outcome is `next()`'s. -/
theorem c2_no_match_falls_through {H : Type}
    (pm : String → String → Option Params → Option Params)
    (isGen : Arg H → Bool) (conv : Arg H → Arg H)
    (ch : List (Arg H) → Ctx H → Outcome) (nxt : Outcome)
    (pfx : String) (ctx : Ctx H) (rts : List (Route H)) (out : DispatchOut H)
    (hnone : firstIdx (accepts pm pfx ctx) rts = none)
    (hout : dispatchGo pm isGen conv ch nxt pfx ctx rts = out) :
    out.ctx = ctx ∧ out.ctx.route = ctx.route ∧ out.ctx.params = ctx.params ∧
      out.matched = none ∧ out.nextCalls = 1 ∧ out.outcome = nxt := by
  subst hout
  rw [dispatchGo_noAccept pm isGen conv ch nxt pfx ctx rts hnone]
  exact ⟨rfl, rfl, rfl, rfl, rfl, rfl⟩

/-- C2 witness: a POST request against a table holding only a GET route
falls through with one `next()` call and an untouched context. -/
theorem c2_witness :
    (dispatchGo pmSample noGen idConv chSample Outcome.resolved "/" ctxPost
        [routeSample]).ctx = ctxPost ∧
    (dispatchGo pmSample noGen idConv chSample Outcome.resolved "/" ctxPost
        [routeSample]).ctx.route = ctxPost.route ∧
    (dispatchGo pmSample noGen idConv chSample Outcome.resolved "/" ctxPost
        [routeSample]).ctx.params = ctxPost.params ∧
    (dispatchGo pmSample noGen idConv chSample Outcome.resolved "/" ctxPost
        [routeSample]).matched = none ∧
    (dispatchGo pmSample noGen idConv chSample Outcome.resolved "/" ctxPost
        [routeSample]).nextCalls = 1 ∧
    (dispatchGo pmSample noGen idConv chSample Outcome.resolved "/" ctxPost
        [routeSample]).outcome = Outcome.resolved :=
  c2_no_match_falls_through pmSample noGen idConv chSample Outcome.resolved
    "/" ctxPost [routeSample] _ (by decide) rfl

/-- C3 counterexample: registering `GET` + `/x` with no handler arguments at
all is accepted by `createRoute` — the call returns a route whose handler
sequence is empty, refuting the claim that a registration yielding zero
handlers is rejected. -/
theorem c3_counterexample :
    exceptOk (createRoute (H := Unit) "/" (Arg.str "GET") (Arg.str "/x")
        Arg.undef []) = true ∧
    Except.map Route.middlewares
        (createRoute (H := Unit) "/" (Arg.str "GET") (Arg.str "/x")
          Arg.undef [])
      = Except.ok [] :=
  ⟨rfl, rfl⟩

/-- C3 (amended): after a successful registration the handler sequence is
exactly the flattened handler arguments and may be empty; `createRoute`
performs no emptiness check, so a registration with zero handlers succeeds
and yields a route with an empty handler sequence. -/
theorem c3_amended_zero_handlers_accepted {H : Type} (pfx rstr : String) :
    Except.map Route.middlewares
        (createRoute (H := H) pfx (Arg.str "GET") (Arg.str rstr) Arg.undef [])
      = Except.ok [] := rfl

/-- C4: the three registration shapes
`createRoute('GET', '/x', h1, h2)`, `createRoute('GET /x', [h1, h2])` and
`createRoute('GET /x', h1, h2)` produce identical route records: method
`GET`, pattern `/x`, full path `createPrefix pfx '/x'` and handler sequence
`[h1, h2]` in that order. -/
theorem c4_createRoute_argument_shapes {H : Type} (pfx : String) (h1 h2 : H) :
    (createRoute pfx (Arg.str "GET") (Arg.str "/x") (Arg.fn h1) [Arg.fn h2]
      = Except.ok { pfx := pfx, path := createPrefix pfx "/x", pathname := "/x",
                    route := "/x", matchPat := createPrefix pfx "/x",
                    method := "GET", middlewares := [Arg.fn h1, Arg.fn h2],
                    params := none }) ∧
    createRoute pfx (Arg.str "GET /x") (Arg.arr [Arg.fn h1, Arg.fn h2]) Arg.undef []
      = createRoute pfx (Arg.str "GET") (Arg.str "/x") (Arg.fn h1) [Arg.fn h2] ∧
    createRoute pfx (Arg.str "GET /x") (Arg.fn h1) (Arg.fn h2) []
      = createRoute pfx (Arg.str "GET") (Arg.str "/x") (Arg.fn h1) [Arg.fn h2] :=
  ⟨rfl, rfl, rfl⟩

/-- C5: `createRoute` fails (with a synchronous `TypeError`, embedded as
`Except.error`) exactly when the method argument is not a string or the
resolved route argument — after moving a function or array argument into
the handler sequence and falling back to the right-hand part of the method
string — is not a string; in particular `createRoute(123, '/x')` and
`createRoute('GET', 123)` both fail, and no route record is produced in
those cases. -/
theorem c5_invalid_argument_iff {H : Type} (pfx : String)
    (method route fns : Arg H) (args : List (Arg H)) :
    (exceptOk (createRoute pfx method route fns args) = false ↔
      method.isStr = false ∨
        (resolveRoute (jsSplit ' ' method.asString) route
            (arrayify fns ++ args)).2.isStr = false) ∧
    exceptOk (createRoute pfx (Arg.num 123) (Arg.str "/x") (Arg.undef : Arg H) [])
      = false ∧
    exceptOk (createRoute pfx (Arg.str "GET") (Arg.num 123) (Arg.undef : Arg H) [])
      = false := by
  refine ⟨?_, rfl, rfl⟩
  cases method with
  | str mstr =>
    simp only [createRoute, Arg.isStr, Arg.asString]
    rcases hrr : (resolveRoute (jsSplit ' ' mstr) route (arrayify fns ++ args)).2
      with s | n | f | l | _
    all_goals simp [hrr, exceptOk]
  | num n => simp [createRoute, Arg.isStr, exceptOk]
  | fn f => simp [createRoute, Arg.isStr, exceptOk]
  | arr l => simp [createRoute, Arg.isStr, exceptOk]
  | undef => simp [createRoute, Arg.isStr, exceptOk]

/-- C6: a route that the dispatch loop considers (its method matches the
request and no earlier route was selected) and whose stored prefix differs
from the configured prefix has its prefix, full path and matcher recomputed
together from the new prefix and the original pattern; and the rewrite is
persistent: any dispatch under the same configured prefix leaves the
prefix, path and matcher of a route already carrying that prefix
unchanged. -/
theorem c6_prefix_rewrite_lazy_persistent {H : Type}
    (pm : String → String → Option Params → Option Params)
    (isGen : Arg H → Bool) (conv : Arg H → Arg H)
    (ch : List (Arg H) → Ctx H → Outcome) (nxt : Outcome)
    (pfx : String) (ctx : Ctx H) (rts : List (Route H)) (out : DispatchOut H)
    (hout : dispatchGo pm isGen conv ch nxt pfx ctx rts = out) :
    (∀ (j : Nat) (r : Route H), rts[j]? = some r →
      ctx.method = r.method → r.pfx ≠ pfx →
      (∀ (k : Nat) (rk : Route H), k < j → rts[k]? = some rk →
        accepts pm pfx ctx rk = false) →
      ∃ r2, out.routes[j]? = some r2 ∧ r2.pfx = pfx ∧
        r2.path = createPrefix pfx r.pathname ∧
        r2.matchPat = createPrefix pfx r.pathname) ∧
    (∀ (j : Nat) (r : Route H), rts[j]? = some r → r.pfx = pfx →
      ∃ r2, out.routes[j]? = some r2 ∧ r2.pfx = r.pfx ∧ r2.path = r.path ∧
        r2.matchPat = r.matchPat ∧ r2.pathname = r.pathname) := by
  subst hout
  constructor
  · intro j r hget hm hne hprior
    obtain ⟨r2, hg2, hcond⟩ :=
      dispatchGo_frame pm isGen conv ch nxt pfx ctx rts j r hget
    obtain ⟨h1, h2, h3⟩ := hcond.2.2.2.2 hne hm hprior
    exact ⟨r2, hg2, h1, h2, h3⟩
  · intro j r hget hpe
    obtain ⟨r2, hg2, hcond⟩ :=
      dispatchGo_frame pm isGen conv ch nxt pfx ctx rts j r hget
    obtain ⟨h1, h2, h3⟩ := hcond.2.2.2.1 hpe
    exact ⟨r2, hg2, h1, h2, h3, hcond.2.1⟩

/-- C6 witness: a GET route stored under prefix `/api` is rewritten to
prefix `/` (path and matcher recomputed to `createPrefix "/" "/x"`) when a
GET request is dispatched under configured prefix `/`. -/
theorem c6_witness :
    ((dispatchGo pmSample noGen idConv chSample Outcome.resolved "/" ctxGet
        [routeOld]).routes[0]?).map Route.pfx = some "/" ∧
    ((dispatchGo pmSample noGen idConv chSample Outcome.resolved "/" ctxGet
        [routeOld]).routes[0]?).map Route.path = some (createPrefix "/" "/x") ∧
    ((dispatchGo pmSample noGen idConv chSample Outcome.resolved "/" ctxGet
        [routeOld]).routes[0]?).map Route.matchPat
      = some (createPrefix "/" "/x") := by
  obtain ⟨r2, hg2, h1, h2, h3⟩ :=
    (c6_prefix_rewrite_lazy_persistent pmSample noGen idConv chSample
      Outcome.resolved "/" ctxGet [routeOld] _ rfl).1 0 routeOld rfl
      (by decide) (by decide)
      (fun k rk hk _ => absurd hk (Nat.not_lt_zero k))
  rw [hg2, Option.map_some', Option.map_some', Option.map_some', h1, h2, h3]
  exact ⟨rfl, rfl, rfl⟩

/-- C7: on a matched route the dispatcher returns the composed chain's
promise chained with `next()`: `next()` runs exactly once when the chain
resolves (and the dispatch resolves to `next()`'s outcome), and when the
chain rejects, `next()` is not invoked and the very same rejection is
propagated as the dispatch outcome — nothing is caught or retried. -/
theorem c7_next_iff_chain_resolves {H : Type}
    (pm : String → String → Option Params → Option Params)
    (isGen : Arg H → Bool) (conv : Arg H → Arg H)
    (ch : List (Arg H) → Ctx H → Outcome) (nxt : Outcome)
    (pfx : String) (ctx : Ctx H) (rts : List (Route H)) (out : DispatchOut H)
    (i : Nat) (hout : dispatchGo pm isGen conv ch nxt pfx ctx rts = out)
    (hi : out.matched = some i) :
    ∃ rF, out.ctx.route = some rF ∧
      out.nextCalls = nextCount (ch rF.middlewares out.ctx) ∧
      out.outcome = thenOutcome (ch rF.middlewares out.ctx) nxt ∧
      (ch rF.middlewares out.ctx = Outcome.resolved →
        out.nextCalls = 1 ∧ out.outcome = nxt) ∧
      ∀ e : String, ch rF.middlewares out.ctx = Outcome.rejected e →
        out.nextCalls = 0 ∧ out.outcome = Outcome.rejected e := by
  subst hout
  rw [dispatchGo_matched_eq] at hi
  obtain ⟨r, m, hget, hm, hpm, heq⟩ :=
    dispatchGo_hit pm isGen conv ch nxt pfx ctx rts i hi
  rw [heq]
  refine ⟨processHit isGen conv m (effRoute pfx r), rfl, rfl, rfl, ?_, ?_⟩
  · intro hres
    rw [hres]
    exact ⟨rfl, rfl⟩
  · intro e hrej
    rw [hrej]
    exact ⟨rfl, rfl⟩

/-- C7 witness: with a chain that rejects, the dispatcher of a matched GET
route performs zero `next()` calls and propagates the rejection. -/
theorem c7_witness :
    (dispatchGo pmSample noGen idConv chFail Outcome.resolved "/" ctxGet
        [routeSample]).nextCalls = 0 ∧
    (dispatchGo pmSample noGen idConv chFail Outcome.resolved "/" ctxGet
        [routeSample]).outcome = Outcome.rejected "boom" := by
  obtain ⟨rF, hroute, hnc, hoc, hres, hrej⟩ :=
    c7_next_iff_chain_resolves pmSample noGen idConv chFail Outcome.resolved
      "/" ctxGet [routeSample] _ 0 rfl (by decide)
  exact hrej "boom" rfl

/-- C8: when the merged configuration resolves `legacy` to true,
`middleware` returns the `legacyMiddleware` wrapper around the modern
dispatcher instead of the modern dispatcher itself, and the internal
re-entry of `middleware()` from `legacyMiddleware` resolves `legacy` to
false, so the construction terminates: recursion depth 2 suffices and any
larger budget returns the same result. -/
theorem c8_legacy_wraps_and_terminates (cur : RouterOptions) (a : MwArg)
    (h : (resolveOpts cur a).legacy = true) :
    (resolveOpts (resolveOpts cur a) MwArg.undef).legacy = false ∧
    middlewareFuel 2 cur a
      = some (resolveOpts (resolveOpts cur a) MwArg.undef,
          Dispatcher.legacyWrap
            (Dispatcher.modern (resolveOpts (resolveOpts cur a) MwArg.undef))) ∧
    ∀ n : Nat, middlewareFuel (n + 2) cur a = middlewareFuel 2 cur a := by
  have hu : ∀ o : RouterOptions, (resolveOpts o MwArg.undef).legacy = false :=
    fun o => rfl
  refine ⟨rfl, ?_, ?_⟩
  · simp [middlewareFuel, h, hu]
  · intro n
    simp [middlewareFuel, h, hu]

/-- C8 witness: `middleware(true)` on a router with options
`{ prefix: '/', legacy: false }` resolves legacy to true and returns the
legacy wrapper around the modern dispatcher within recursion depth 2. -/
theorem c8_witness :
    middlewareFuel 2 { pfx := "/", legacy := false } (MwArg.bool true)
      = some ({ pfx := "/", legacy := false },
          Dispatcher.legacyWrap (Dispatcher.modern { pfx := "/", legacy := false })) :=
  (c8_legacy_wraps_and_terminates { pfx := "/", legacy := false }
    (MwArg.bool true) (by decide)).2.1

/-- Resolving any name other than the constructor's own `options`, `route`
and `routes` properties delegates to the shared prototype. -/
theorem instanceProp_proto {H : Type} (w : World H) (i : Nat)
    (inst : RouterInst H) (hinst : w.instances[i]? = some inst) (name : String)
    (h1 : name ≠ "options") (h2 : name ≠ "route") (h3 : name ≠ "routes") :
    instanceProp w i name = (w.proto.lookup name).map PropVal.verbMethod := by
  simp only [instanceProp, hinst]
  rw [if_neg h1, if_neg h2, if_neg h3]

/-- Resolving `options` on an instance yields its own options object,
shadowing the prototype. -/
theorem instanceProp_options {H : Type} (w : World H) (i : Nat)
    (inst : RouterInst H) (hinst : w.instances[i]? = some inst) :
    instanceProp w i "options" = some (PropVal.optionsVal inst.options) := by
  simp only [instanceProp, hinst]
  simp

/-- C9 counterexample: `loadMethods()` does install an `options` verb
method on the shared prototype, but on an instance the constructor's own
`options` data property shadows it: resolving `options` on instance 0
yields the instance's options object, not the installed verb-sugar method
— refuting the claim that every instance gains the lowercase method for
every verb. -/
theorem c9_counterexample :
    (loadMethodsW worldSample 0).proto.lookup "options" = some "OPTIONS" ∧
    instanceProp (loadMethodsW worldSample 0) 0 "options"
      = some (PropVal.optionsVal instSample.options) ∧
    instanceProp (loadMethodsW worldSample 0) 0 "options"
      ≠ some (PropVal.verbMethod "OPTIONS") :=
  ⟨rfl, rfl, fun h => PropVal.noConfusion (Option.some.inj h)⟩

/-- C9 (amended): `loadMethods()` called on any one instance installs, on
the shared `KoaBetterRouter.prototype`, a lowercase and an uppercase method
per HTTP verb (each forwarding the uppercase verb to `addRoute`) plus the
`del` alias for `delete`, touching no instance state; every instance of any
world sharing that prototype — so also instances created before or after
the call — resolves the uppercase names, `del`, and every lowercase verb
to the installed forwarder, except where a constructor-installed own
property shadows the prototype: the lowercase `options` name resolves to
the instance's own options object, never to the installed verb method. -/
theorem c9_loadMethods_prototype_shadowing {H : Type} (w : World H)
    (caller : Nat) :
    (loadMethodsW w caller).instances = w.instances ∧
    (loadMethodsW w caller).proto.lookup "del" = some "DELETE" ∧
    (∀ m : String, m ∈ httpMethods →
      (loadMethodsW w caller).proto.lookup m = some (jsToUpper m) ∧
      (loadMethodsW w caller).proto.lookup (jsToUpper m) = some (jsToUpper m)) ∧
    (∀ w2 : World H, w2.proto = (loadMethodsW w caller).proto →
      ∀ (i : Nat) (inst : RouterInst H), w2.instances[i]? = some inst →
        instanceProp w2 i "del" = some (PropVal.verbMethod "DELETE") ∧
        instanceProp w2 i "options" = some (PropVal.optionsVal inst.options) ∧
        ∀ m : String, m ∈ httpMethods →
          instanceProp w2 i (jsToUpper m)
            = some (PropVal.verbMethod (jsToUpper m)) ∧
          (m ≠ "options" →
            instanceProp w2 i m = some (PropVal.verbMethod (jsToUpper m)))) ∧
    (∀ opts : RouterOptions,
      (newInstance (loadMethodsW w caller) opts).proto
        = (loadMethodsW w caller).proto) := by
  refine ⟨rfl, rfl, ?_, ?_, fun opts => rfl⟩
  · intro m hm
    fin_cases hm <;> exact ⟨rfl, rfl⟩
  · intro w2 hw2 i inst hinst
    refine ⟨?_, instanceProp_options w2 i inst hinst, ?_⟩
    · rw [instanceProp_proto w2 i inst hinst "del" (by decide) (by decide)
        (by decide), hw2]
      rfl
    · intro m hm
      fin_cases hm
      · exact ⟨by rw [instanceProp_proto w2 i inst hinst (jsToUpper "get")
            (by decide) (by decide) (by decide), hw2]; rfl,
          fun _ => by rw [instanceProp_proto w2 i inst hinst "get" (by decide)
            (by decide) (by decide), hw2]; rfl⟩
      · exact ⟨by rw [instanceProp_proto w2 i inst hinst (jsToUpper "post")
            (by decide) (by decide) (by decide), hw2]; rfl,
          fun _ => by rw [instanceProp_proto w2 i inst hinst "post" (by decide)
            (by decide) (by decide), hw2]; rfl⟩
      · exact ⟨by rw [instanceProp_proto w2 i inst hinst (jsToUpper "put")
            (by decide) (by decide) (by decide), hw2]; rfl,
          fun _ => by rw [instanceProp_proto w2 i inst hinst "put" (by decide)
            (by decide) (by decide), hw2]; rfl⟩
      · exact ⟨by rw [instanceProp_proto w2 i inst hinst (jsToUpper "head")
            (by decide) (by decide) (by decide), hw2]; rfl,
          fun _ => by rw [instanceProp_proto w2 i inst hinst "head" (by decide)
            (by decide) (by decide), hw2]; rfl⟩
      · exact ⟨by rw [instanceProp_proto w2 i inst hinst (jsToUpper "delete")
            (by decide) (by decide) (by decide), hw2]; rfl,
          fun _ => by rw [instanceProp_proto w2 i inst hinst "delete" (by decide)
            (by decide) (by decide), hw2]; rfl⟩
      · exact ⟨by rw [instanceProp_proto w2 i inst hinst (jsToUpper "options")
            (by decide) (by decide) (by decide), hw2]; rfl,
          fun hne => absurd rfl hne⟩
      · exact ⟨by rw [instanceProp_proto w2 i inst hinst (jsToUpper "patch")
            (by decide) (by decide) (by decide), hw2]; rfl,
          fun _ => by rw [instanceProp_proto w2 i inst hinst "patch" (by decide)
            (by decide) (by decide), hw2]; rfl⟩

/-- C9 witness: after `loadMethods()` on instance 0 of the sample world,
that instance resolves `del` and `put` to the installed forwarders while
its route table (and the whole instance list) is untouched. -/
theorem c9_amended_witness :
    instanceProp (loadMethodsW worldSample 0) 0 "del"
      = some (PropVal.verbMethod "DELETE") ∧
    instanceProp (loadMethodsW worldSample 0) 0 "put"
      = some (PropVal.verbMethod "PUT") ∧
    (loadMethodsW worldSample 0).instances = worldSample.instances :=
  ⟨((c9_loadMethods_prototype_shadowing worldSample 0).2.2.2.1
      (loadMethodsW worldSample 0) rfl 0 instSample rfl).1,
   (((c9_loadMethods_prototype_shadowing worldSample 0).2.2.2.1
      (loadMethodsW worldSample 0) rfl 0 instSample rfl).2.2 "put"
      (by decide)).2 (by decide),
   (c9_loadMethods_prototype_shadowing worldSample 0).1⟩

/-- C10: the dispatch loop's method check precedes its prefix check and
skips non-matching routes entirely, so a route whose method is used by none
of a sequence of dispatched requests is byte-for-byte unchanged — it keeps
its old stored prefix, path and matcher even while routes of the dispatched
methods have been rewritten to the new prefix. -/
theorem c10_method_skip_preserves_route {H : Type}
    (pm : String → String → Option Params → Option Params)
    (isGen : Arg H → Bool) (conv : Arg H → Arg H)
    (ch : List (Arg H) → Ctx H → Outcome) (nxt : Outcome)
    (pfx : String) :
    ∀ (ctxs : List (Ctx H)) (rts : List (Route H)) (j : Nat) (r : Route H),
      rts[j]? = some r →
      (∀ c ∈ ctxs, c.method ≠ r.method) →
      (dispatchSeq pm isGen conv ch nxt pfx ctxs rts)[j]? = some r
  | [], rts, j, r, hget, _ => hget
  | c :: cs, rts, j, r, hget, hne => by
    obtain ⟨r2, hg2, hcond⟩ :=
      dispatchGo_frame pm isGen conv ch nxt pfx c rts j r hget
    have hr2 : r2 = r := hcond.1 (hne c (List.mem_cons_self c cs))
    subst hr2
    exact c10_method_skip_preserves_route pm isGen conv ch nxt pfx cs
      (dispatchGo pm isGen conv ch nxt pfx c rts).routes j r2 hg2
      (fun c2 hc2 => hne c2 (List.mem_cons_of_mem c hc2))

/-- C10 witness: after dispatching a POST request under configured prefix
`/`, the GET route stored under old prefix `/api` is completely unchanged
(it still carries the old prefix, path and matcher). -/
theorem c10_witness :
    (dispatchSeq pmSample noGen idConv chSample Outcome.resolved "/"
        [ctxPost] [routeOld])[0]? = some routeOld :=
  c10_method_skip_preserves_route pmSample noGen idConv chSample
    Outcome.resolved "/" [ctxPost] [routeOld] 0 routeOld rfl
    (by intro c hc; simp at hc; subst hc; decide)
